import Mathlib

/-!
Verification of the brainwave daily-planner core: a shallow embedding of the
markdown schedule parser, the time-string parser, the schedule store mutation
operations, the reminder scheduler and the generation state transition, with
theorems settling the specification claims about them.

JavaScript strings are modelled as `List Char` in the character-level helpers
and as `String` at the interfaces.  A JS array slot holding a task object is
modelled as `Option Task`: `none` models an `undefined` entry, which
`reorderTask` can introduce by splicing with an out-of-range source index.
-/

namespace Brainwave

/-- Character class of the JS regex `\s` and of `String.prototype.trim`
(ECMAScript WhiteSpace plus LineTerminator). -/
def isJsWs (c : Char) : Bool :=
  c.toNat = 9 || c.toNat = 10 || c.toNat = 11 || c.toNat = 12 || c.toNat = 13 ||
  c.toNat = 32 || c.toNat = 0xa0 || c.toNat = 0x1680 ||
  (0x2000 ≤ c.toNat && c.toNat ≤ 0x200a) ||
  c.toNat = 0x2028 || c.toNat = 0x2029 || c.toNat = 0x202f ||
  c.toNat = 0x205f || c.toNat = 0x3000 || c.toNat = 0xfeff

/-- Character class of the JS regex `\d`. -/
def isAsciiDigit (c : Char) : Bool :=
  48 ≤ c.toNat && c.toNat ≤ 57

/-- Numeric value of a decimal digit character. -/
def digitVal (c : Char) : Nat := c.toNat - 48

/-- Line terminators, the characters NOT matched by the JS regex `.`. -/
def isLineTerm (c : Char) : Bool :=
  c = '\n' || c = '\r' || c.toNat = 0x2028 || c.toNat = 0x2029

/-- `String.prototype.trim` on the left end. -/
def jsTrimLeft (l : List Char) : List Char := l.dropWhile isJsWs

/-- `String.prototype.trim` on the right end. -/
def jsTrimRight (l : List Char) : List Char := (l.reverse.dropWhile isJsWs).reverse

/-- `String.prototype.trim`. -/
def jsTrim (l : List Char) : List Char := jsTrimRight (jsTrimLeft l)

/-- `String.prototype.split` with a one-character separator: occurrences
are removed left to right and the pieces between them returned
(`"".split(sep) = [""]`). -/
def splitOnChar (sep : Char) : List Char → List (List Char)
  | [] => [[]]
  | c :: cs =>
    if c = sep then [] :: splitOnChar sep cs
    else
      match splitOnChar sep cs with
      | [] => [[c]]
      | f :: rest => (c :: f) :: rest

/-- `String.prototype.split` with a two-character separator: non-overlapping
occurrences are removed left to right (`"***".split("**") = ["", "*"]`). -/
def splitOnTwoChars (s1 s2 : Char) : List Char → List (List Char)
  | [] => [[]]
  | [c] => [[c]]
  | c1 :: c2 :: cs =>
    if c1 = s1 && c2 = s2 then [] :: splitOnTwoChars s1 s2 cs
    else
      match splitOnTwoChars s1 s2 (c2 :: cs) with
      | [] => [[c1]]
      | f :: rest => (c1 :: f) :: rest

/-! ### Time utilities (`parseTime` in PlannerDisplay)

The JS source runs the unanchored search
`timeStr.trim().match(/(\d{1,2}):(\d{2})\s*(AM|PM)/i)` and converts the
captured fields to 24-hour form.  The searcher below replays the regex
engine: leftmost starting position first, and at one position the greedy
two-digit hour is tried before the one-digit hour. -/

/-- After hour and minutes are read: `\s*(AM|PM)` case-insensitively.
Returns hour, minute and whether the period was PM. -/
def afterMinutes (h m : Nat) (rest : List Char) : Option (Nat × Nat × Bool) :=
  match rest.dropWhile isJsWs with
  | a :: b :: _ =>
    if (a = 'A' || a = 'a') && (b = 'M' || b = 'm') then some (h, m, false)
    else if (a = 'P' || a = 'p') && (b = 'M' || b = 'm') then some (h, m, true)
    else none
  | _ => none

/-- After the hour digits: `:(\d{2})` then the tail of the pattern. -/
def afterHour (h : Nat) (rest : List Char) : Option (Nat × Nat × Bool) :=
  match rest with
  | ':' :: m1 :: m2 :: rest2 =>
    if isAsciiDigit m1 && isAsciiDigit m2 then
      afterMinutes h (10 * digitVal m1 + digitVal m2) rest2
    else none
  | _ => none

/-- Try to match `(\d{1,2}):(\d{2})\s*(AM|PM)` at the head of `l`,
greedy on the hour digits. -/
def matchTimeAt (l : List Char) : Option (Nat × Nat × Bool) :=
  match l with
  | c1 :: c2 :: rest =>
    if isAsciiDigit c1 && isAsciiDigit c2 then
      match afterHour (10 * digitVal c1 + digitVal c2) rest with
      | some r => some r
      | none => afterHour (digitVal c1) (c2 :: rest)
    else if isAsciiDigit c1 then afterHour (digitVal c1) (c2 :: rest)
    else none
  | [c1] => if isAsciiDigit c1 then afterHour (digitVal c1) [] else none
  | [] => none

/-- Unanchored search: try each starting position left to right. -/
def scanTime : List Char → Option (Nat × Nat × Bool)
  | [] => none
  | c :: cs =>
    match matchTimeAt (c :: cs) with
    | some r => some r
    | none => scanTime cs

/-- `parseTime` from PlannerDisplay: search the trimmed string for
`(\d{1,2}):(\d{2})\s*(AM|PM)` (case-insensitive) and convert to 24-hour
form (12 AM becomes hour 0, PM hours below 12 gain 12).  The JS function
builds a `Date` of today carrying only this hour and minute; the model
returns the hour/minute pair, `none` for the JS `null`. -/
def parseTime (timeStr : String) : Option (Nat × Nat) :=
  if timeStr = "" then none
  else
    match scanTime (jsTrim timeStr.data) with
    | none => none
    | some (h, m, isPM) =>
      let h1 := if isPM && decide (h < 12) then h + 12 else h
      let h2 := if !isPM && h1 = 12 then 0 else h1
      some (h2, m)

/-! ### Data model -/

/-- One task: display text and free-form notes. -/
structure Task where
  text : String
  notes : String
deriving DecidableEq, Repr

/-- One schedule block.  The task array is a list of JS slots; a slot is
`some task` for a task object and `none` for an `undefined` entry. -/
structure ScheduleBlock where
  id : Nat
  time : String
  title : String
  tasks : List (Option Task)
deriving DecidableEq, Repr

/-- Composite completion key `"{blockId}-{taskIndex}"`. -/
def mkTaskKey (blockId taskIndex : Nat) : String :=
  toString blockId ++ "-" ++ toString taskIndex

/-- Total task count of a schedule (counting every array slot). -/
def totalTasks (schedule : List ScheduleBlock) : Nat :=
  (schedule.map (fun b => b.tasks.length)).sum

/-! ### Schedule parser (`parsePlannerContent` in geminiService) -/

/-- `map` with the JS callback index, starting at `n`. -/
def mapWithIdx (f : Nat → α → β) : Nat → List α → List β
  | _, [] => []
  | n, a :: as => f n a :: mapWithIdx f (n + 1) as

/-- `filter` with the JS callback index, starting at `n`. -/
def filterWithIdx (p : Nat → α → Bool) : Nat → List α → List α
  | _, [] => []
  | n, a :: as =>
    if p n a then a :: filterWithIdx p (n + 1) as
    else filterWithIdx p (n + 1) as

/-- Try to end capture group 1 of `(.*(?:AM|PM))\s*:\s*(.*)` after a `.*`
part of length `j`: the two literal characters must spell `AM` or `PM`
(this regex has no `i` flag), then `\s*`, a colon, `\s*`, and group 2 is
the greedy `.*` up to the next line terminator. -/
def tryColonTitle (l : List Char) (j : Nat) : Option (List Char × List Char) :=
  match l.get? j, l.get? (j + 1) with
  | some a, some b =>
    if (a = 'A' || a = 'P') && b = 'M' then
      match (l.drop (j + 2)).dropWhile isJsWs with
      | ':' :: rest2 =>
        some (l.take (j + 2), (rest2.dropWhile isJsWs).takeWhile (fun c => !isLineTerm c))
      | _ => none
    else none
  | _, _ => none

/-- Backtracking of the greedy `.*` in group 1: try the longest `.*` part
first, then shorter ones. -/
def searchTT (l : List Char) : Nat → Option (List Char × List Char)
  | 0 => tryColonTitle l 0
  | j + 1 =>
    match tryColonTitle l (j + 1) with
    | some r => some r
    | none => searchTT l j

/-- Match `(.*(?:AM|PM))\s*:\s*(.*)` at the head of `l`: the `.*` part may
cover at most the maximal line-terminator-free prefix. -/
def matchTTAt (l : List Char) : Option (List Char × List Char) :=
  searchTT l (l.takeWhile (fun c => !isLineTerm c)).length

/-- Unanchored search of `(.*(?:AM|PM))\s*:\s*(.*)`, leftmost start first. -/
def scanTT : List Char → Option (List Char × List Char)
  | [] => none
  | c :: cs =>
    match matchTTAt (c :: cs) with
    | some r => some r
    | none => scanTT cs

/-- Fallback extraction: split the time-and-title line on every colon, the
first part is the time, the rest colon-rejoined is the title, both trimmed. -/
def fallbackSplit (l : List Char) : List Char × List Char :=
  let parts := splitOnChar ':' l
  (jsTrim (parts.headD []), jsTrim (List.intercalate [':'] parts.tail))

/-- Extract time and title from the first line of a fragment: the regex
result is used only when both capture groups are non-empty, otherwise the
colon-split fallback. -/
def timeTitleOf (timeAndTitle : List Char) : List Char × List Char :=
  match scanTT timeAndTitle with
  | some (g1, g2) =>
    if g1.isEmpty || g2.isEmpty then fallbackSplit timeAndTitle
    else (jsTrim g1, jsTrim g2)
  | none => fallbackSplit timeAndTitle

/-- Strip a leading bullet marker: the regex `^[*\-]\s*`, replaced once. -/
def stripBullet (line : List Char) : List Char :=
  match line with
  | c :: rest =>
    if c = '*' || c = '-' then rest.dropWhile isJsWs else line
  | [] => []

/-- Build one schedule block from one surviving fragment.  The fragment is
trimmed and split on newlines; the first line carries time and title, the
remaining lines are bullet-stripped, trimmed, and the non-empty ones become
tasks with empty notes. -/
def parseBlockFragment (index : Nat) (fragment : List Char) : ScheduleBlock :=
  let lines := splitOnChar '\n' (jsTrim fragment)
  let timeAndTitle := lines.headD []
  let taskLines := lines.tail
  let tt := timeTitleOf timeAndTitle
  let tasks :=
    ((taskLines.map (fun line => jsTrim (stripBullet line))).filter
      (fun t => !t.isEmpty)).map
      (fun t => some ({ text := String.mk t, notes := "" } : Task))
  { id := index, time := String.mk tt.1, title := String.mk tt.2, tasks := tasks }

/-- `parsePlannerContent`: split the document on `**`, keep the fragments
that are non-empty after trimming and contain a colon, and build one block
per surviving fragment, ids assigned by position. -/
def parsePlannerContent (content : String) : List ScheduleBlock :=
  if content = "" then []
  else
    let fragments :=
      (splitOnTwoChars '*' '*' content.data).filter
        (fun fragment => !(jsTrim fragment).isEmpty && fragment.contains ':')
    mapWithIdx parseBlockFragment 0 fragments

/-! ### Schedule store mutation operations (App.tsx handlers) -/

/-- Drag source or destination position. -/
structure DragPos where
  blockId : Nat
  taskIndex : Nat

/-- Replace the first element satisfying `p` by its image under `f`,
modelling a JS `find` followed by mutation of the found object. -/
def updateFirst (p : ScheduleBlock → Bool) (f : ScheduleBlock → ScheduleBlock) :
    List ScheduleBlock → List ScheduleBlock
  | [] => []
  | b :: bs => if p b then f b :: bs else b :: updateFirst p f bs

/-- JS `Array.prototype.splice(i, 0, x)`: insert `x` so that it occupies
index `i` (clamped to the length), shifting later entries right. -/
def spliceInsert (i : Nat) (x : α) (l : List α) : List α :=
  l.take i ++ x :: l.drop i

/-- `handleUpdateTaskText`: locate the first block with the given id; if the
slot at `taskIndex` holds a task object (JS truthiness: an `undefined` slot
fails the guard), replace its text.  Otherwise the schedule is unchanged. -/
def updateTaskText (blockId taskIndex : Nat) (newText : String)
    (schedule : List ScheduleBlock) : List ScheduleBlock :=
  updateFirst (fun b => b.id == blockId)
    (fun b =>
      match b.tasks.get? taskIndex with
      | some (some t) => { b with tasks := b.tasks.set taskIndex (some { t with text := newText }) }
      | _ => b)
    schedule

/-- `handleUpdateTaskNotes`: same lookup, replacing the notes field. -/
def updateTaskNotes (blockId taskIndex : Nat) (newNotes : String)
    (schedule : List ScheduleBlock) : List ScheduleBlock :=
  updateFirst (fun b => b.id == blockId)
    (fun b =>
      match b.tasks.get? taskIndex with
      | some (some t) => { b with tasks := b.tasks.set taskIndex (some { t with notes := newNotes }) }
      | _ => b)
    schedule

/-- `handleDeleteTask`: map over all blocks, removing the slot at
`taskIndex` from every block with the given id (index filter). -/
def deleteTask (blockId taskIndex : Nat) (schedule : List ScheduleBlock) :
    List ScheduleBlock :=
  schedule.map (fun b =>
    if b.id == blockId then
      { b with tasks := filterWithIdx (fun index _ => index != taskIndex) 0 b.tasks }
    else b)

/-- `handleReorderTasks`: find source and destination blocks by id (no-op
if either is missing), splice one slot out of the source task array
(`undefined`, i.e. `none`, when the source index is out of range) and
splice it into the destination task array.  The removal is applied before
the insertion, so a same-block move uses the already-shrunk array. -/
def reorderTask (source destination : DragPos) (schedule : List ScheduleBlock) :
    List ScheduleBlock :=
  match schedule.find? (fun b => b.id == source.blockId),
        schedule.find? (fun b => b.id == destination.blockId) with
  | some sourceBlock, some _ =>
    let removedTask : Option Task := (sourceBlock.tasks.get? source.taskIndex).getD none
    let afterRemove :=
      updateFirst (fun b => b.id == source.blockId)
        (fun b => { b with tasks := b.tasks.eraseIdx source.taskIndex }) schedule
    updateFirst (fun b => b.id == destination.blockId)
      (fun b => { b with tasks := spliceInsert destination.taskIndex removedTask b.tasks })
      afterRemove
  | _, _ => schedule

/-- `handleClearCompletedTasks` (schedule part): in every block, keep only
the slots whose composite key, computed against the pre-filter index, is
not marked completed.  `completed` models the JS record lookup followed by
truthiness, so an absent key reads as `false`. -/
def clearCompletedTasks (completed : String → Bool) (schedule : List ScheduleBlock) :
    List ScheduleBlock :=
  schedule.map (fun b =>
    { b with tasks := filterWithIdx (fun taskIndex _ => !completed (mkTaskKey b.id taskIndex)) 0 b.tasks })

/-! ### Reminder scheduler (PlannerDisplay notification effect) -/

/-- Start instant of a block in milliseconds from today's midnight:
`parseTime(block.time.split('-')[0])`. -/
def blockStartMs (b : ScheduleBlock) : Option Int :=
  (parseTime (String.mk ((splitOnChar '-' b.time.data).headD []))).map
    (fun hm => ((hm.1 * 60 + hm.2 : Nat) : Int) * 60000)

/-- One block's firing condition on one tick: the start time parses, the
block has not been notified, and `now` lies in
`[start - lead minutes, start)`. -/
def shouldNotify (lead : Nat) (notified : List Nat) (now : Int) (b : ScheduleBlock) : Bool :=
  match blockStartMs b with
  | some start =>
    !(notified.contains b.id) &&
      decide (start - (lead : Int) * 60000 ≤ now) && decide (now < start)
  | none => false

/-- One 30-second tick of the notification effect: nothing happens unless
permission is granted, the lead time is non-zero and blocks exist; the
whole pass checks the pre-tick notified set (the React state updates are
queued), so the blocks fired in one tick are exactly those satisfying
`shouldNotify` against that set. -/
def reminderTick (granted : Bool) (lead : Nat) (blocks : List ScheduleBlock)
    (notified : List Nat) (now : Int) : List ScheduleBlock :=
  if granted && lead != 0 && !blocks.isEmpty then
    blocks.filter (shouldNotify lead notified now)
  else []

/-- Run the scheduler over a list of tick instants, starting from a given
notified set, returning the fired events `(tick instant, block id)` in
order together with the final notified set. -/
def runTicks (granted : Bool) (lead : Nat) (blocks : List ScheduleBlock) :
    List Nat → List Int → List (Int × Nat) × List Nat
  | notified, [] => ([], notified)
  | notified, t :: ts =>
    let fired := reminderTick granted lead blocks notified t
    let rest := runTicks granted lead blocks (notified ++ fired.map (fun b => b.id)) ts
    (fired.map (fun b => (t, b.id)) ++ rest.1, rest.2)

/-! ### Generation state transition (`handleGenerate` in App.tsx) -/

/-- The slice of App state that `handleGenerate` touches.  The completion
map is the persisted record of composite keys. -/
structure AppState where
  schedule : Option (List ScheduleBlock)
  completedTasks : List (String × Bool)
  error : Option String
  isLoading : Bool
deriving DecidableEq

/-- `handleGenerate`: before awaiting the collaborator it sets loading,
clears the error, the schedule and the completion map; then on success it
stores the parsed schedule, and on failure it stores the error message.
`result` is the outcome of the awaited external generation call. -/
def handleGenerate (result : Except String String) (st : AppState) : AppState :=
  let st1 : AppState :=
    { st with isLoading := true, error := none, schedule := none, completedTasks := [] }
  match result with
  | .ok content => { st1 with schedule := some (parsePlannerContent content), isLoading := false }
  | .error msg => { st1 with error := some msg, isLoading := false }

/-! ## Theorems -/

/-! ### Helper lemmas about `updateFirst`, `spliceInsert` and task counts -/

theorem updateFirst_of_find?_eq_none {p : ScheduleBlock → Bool}
    {f : ScheduleBlock → ScheduleBlock} {l : List ScheduleBlock}
    (h : l.find? p = none) : updateFirst p f l = l := by
  induction l with
  | nil => rfl
  | cons b bs ih =>
    rw [List.find?_cons] at h
    cases hp : p b with
    | true => simp [hp] at h
    | false =>
      simp only [hp] at h
      simp [updateFirst, hp, ih h]

theorem find?_updateFirst_self {p : ScheduleBlock → Bool}
    {f : ScheduleBlock → ScheduleBlock} {l : List ScheduleBlock} {b : ScheduleBlock}
    (hfind : l.find? p = some b) (hpf : ∀ x, p (f x) = p x) :
    (updateFirst p f l).find? p = some (f b) := by
  induction l with
  | nil => simp at hfind
  | cons a as ih =>
    rw [List.find?_cons] at hfind
    cases hp : p a with
    | true =>
      simp only [hp] at hfind
      cases hfind
      simp [updateFirst, hp, List.find?_cons, hpf]
    | false =>
      simp only [hp] at hfind
      simp [updateFirst, hp, List.find?_cons, ih hfind]

theorem find?_updateFirst_other {p q : ScheduleBlock → Bool}
    {f : ScheduleBlock → ScheduleBlock} (l : List ScheduleBlock)
    (hqf : ∀ x, q (f x) = q x) (hpq : ∀ x, p x = true → q x = false) :
    (updateFirst p f l).find? q = l.find? q := by
  induction l with
  | nil => rfl
  | cons a as ih =>
    cases hp : p a with
    | true =>
      simp [updateFirst, hp, List.find?_cons, hqf, hpq a hp]
    | false =>
      cases hq : q a with
      | true => simp [updateFirst, hp, List.find?_cons, hq]
      | false => simp [updateFirst, hp, List.find?_cons, hq, ih]

theorem updateFirst_id_of_fix {p : ScheduleBlock → Bool}
    {f : ScheduleBlock → ScheduleBlock} {l : List ScheduleBlock} {b : ScheduleBlock}
    (hfind : l.find? p = some b) (hb : f b = b) : updateFirst p f l = l := by
  induction l with
  | nil => rfl
  | cons a as ih =>
    rw [List.find?_cons] at hfind
    cases hp : p a with
    | true =>
      simp only [hp] at hfind
      cases hfind
      simp [updateFirst, hp, hb]
    | false =>
      simp only [hp] at hfind
      simp [updateFirst, hp, ih hfind]

theorem map_id_updateFirst {p : ScheduleBlock → Bool}
    {f : ScheduleBlock → ScheduleBlock} (l : List ScheduleBlock)
    (hf : ∀ x, (f x).id = x.id) :
    (updateFirst p f l).map (fun b => b.id) = l.map (fun b => b.id) := by
  induction l with
  | nil => rfl
  | cons a as ih =>
    cases hp : p a with
    | true => simp [updateFirst, hp, hf]
    | false => simp [updateFirst, hp, ih]

theorem totalTasks_updateFirst {p : ScheduleBlock → Bool}
    {f : ScheduleBlock → ScheduleBlock} {l : List ScheduleBlock} {b : ScheduleBlock}
    (hfind : l.find? p = some b) :
    totalTasks (updateFirst p f l) + b.tasks.length =
      totalTasks l + (f b).tasks.length := by
  induction l with
  | nil => simp at hfind
  | cons a as ih =>
    rw [List.find?_cons] at hfind
    cases hp : p a with
    | true =>
      simp only [hp] at hfind
      cases hfind
      simp [updateFirst, hp, totalTasks]
      omega
    | false =>
      simp only [hp] at hfind
      have := ih hfind
      simp [updateFirst, hp, totalTasks] at this ⊢
      omega

theorem length_spliceInsert (i : Nat) (x : α) (l : List α) :
    (spliceInsert i x l).length = l.length + 1 := by
  simp [spliceInsert, List.length_take, List.length_drop]
  omega

theorem spliceInsert_one_cons (x u : α) (us : List α) :
    spliceInsert 1 x (u :: us) = u :: x :: us := rfl

theorem eraseIdx_of_length_le {l : List α} {i : Nat} (h : l.length ≤ i) :
    l.eraseIdx i = l := by
  induction l generalizing i with
  | nil => simp [List.eraseIdx]
  | cons a as ih =>
    cases i with
    | zero => simp at h
    | succ j =>
      simp only [List.length_cons, Nat.succ_le_succ_iff] at h
      simp [List.eraseIdx, ih h]

/-- C1: the claim states that after a generation error the schedule equals
the schedule held before `handleGenerate` ran.  This is false: the handler
clears the schedule before awaiting the collaborator, so a prior non-empty
schedule is gone after the error. -/
theorem c1_schedule_not_preserved_counterexample :
    (handleGenerate
      (Except.error "Failed to generate schedule from AI. Please check your API key and try again.")
      (AppState.mk
        (some [ScheduleBlock.mk 0 "7:00 AM - 8:00 AM" "Morning" [some (Task.mk "Eat breakfast" "")]])
        [("0-0", true)] none false)).schedule ≠
    some [ScheduleBlock.mk 0 "7:00 AM - 8:00 AM" "Morning" [some (Task.mk "Eat breakfast" "")]] := by
  decide

/-- C1 (amended): `handleGenerate` clears the schedule and the completion
map before the external call, so after a generation error the state holds
no schedule, an empty completion map, and the surfaced error message —
regardless of the prior state. -/
theorem c1_generation_error_clears_state (st : AppState) (msg : String) :
    handleGenerate (Except.error msg) st =
      { schedule := none, completedTasks := [], error := some msg, isLoading := false } := rfl

/-- C2: evaluating `parsePlannerContent` at the claimed end-to-end input.
The split on the bold delimiter puts the bullet lines into their own
fragments, which contain no colon and are discarded, so both blocks come
out with the claimed time and title but with EMPTY task lists — not with
the tasks the claim (and the generator prompt format) intends. -/
theorem c2_parse_example_drops_tasks :
    parsePlannerContent
      "**7:00 AM - 8:00 AM: Morning**\n* Eat breakfast\n* Brush teeth\n\n**8:00 AM - 9:00 AM: Work: Deep Focus**\n* Write report" =
      [{ id := 0, time := "7:00 AM - 8:00 AM", title := "Morning", tasks := [] },
       { id := 1, time := "8:00 AM - 9:00 AM", title := "Work: Deep Focus", tasks := [] }] := by
  decide

theorem get?_eq_none_of_length_le {l : List α} {i : Nat} (h : l.length ≤ i) :
    l.get? i = none := by
  induction l generalizing i with
  | nil => rfl
  | cons a as ih =>
    cases i with
    | zero => simp at h
    | succ j =>
      simp only [List.length_cons, Nat.succ_le_succ_iff] at h
      simpa [List.get?] using ih h

/-- C5: on a schedule whose first block with id 1 has a task at index 0 and
whose first block with id 2 has a non-empty task list,
`reorderTask {1,0} {2,1}` removes exactly that task from the source block,
inserts it into the destination block where it occupies position 1, and
conserves the total task count; and `reorderTask` is a no-op whenever
either block id is not found. -/
theorem c5_reorderTask_moves_one_task
    (schedule : List ScheduleBlock) (b1 b2 : ScheduleBlock)
    (tk : Option Task) (rest : List (Option Task))
    (h1 : schedule.find? (fun b => b.id == 1) = some b1)
    (h2 : schedule.find? (fun b => b.id == 2) = some b2)
    (hb1 : b1.tasks = tk :: rest)
    (hb2 : b2.tasks ≠ []) :
    (reorderTask ⟨1, 0⟩ ⟨2, 1⟩ schedule).find? (fun b => b.id == 1) =
        some { b1 with tasks := rest } ∧
    (reorderTask ⟨1, 0⟩ ⟨2, 1⟩ schedule).find? (fun b => b.id == 2) =
        some { b2 with tasks := spliceInsert 1 tk b2.tasks } ∧
    (spliceInsert 1 tk b2.tasks).get? 1 = some tk ∧
    (spliceInsert 1 tk b2.tasks).length = b2.tasks.length + 1 ∧
    rest.length + 1 = b1.tasks.length ∧
    totalTasks (reorderTask ⟨1, 0⟩ ⟨2, 1⟩ schedule) = totalTasks schedule ∧
    (∀ (src dst : DragPos) (s : List ScheduleBlock),
      (s.find? (fun b => b.id == src.blockId) = none ∨
       s.find? (fun b => b.id == dst.blockId) = none) →
      reorderTask src dst s = s) := by
  have hremoved : (b1.tasks.get? 0).getD none = tk := by
    rw [hb1]; rfl
  have hpq12 : ∀ x : ScheduleBlock, (x.id == 1) = true → (x.id == 2) = false := by
    intro x hx
    have hx1 : x.id = 1 := by simpa using hx
    simp [hx1]
  have hpq21 : ∀ x : ScheduleBlock, (x.id == 2) = true → (x.id == 1) = false := by
    intro x hx
    have hx1 : x.id = 2 := by simpa using hx
    simp [hx1]
  have e : reorderTask ⟨1, 0⟩ ⟨2, 1⟩ schedule =
      updateFirst (fun b => b.id == 2)
        (fun b => { b with tasks := spliceInsert 1 tk b.tasks })
        (updateFirst (fun b => b.id == 1)
          (fun b => { b with tasks := b.tasks.eraseIdx 0 }) schedule) := by
    simp only [reorderTask, h1, h2, hremoved]
  have hafter2 : (updateFirst (fun b => b.id == 1)
      (fun b => { b with tasks := b.tasks.eraseIdx 0 }) schedule).find?
        (fun b => b.id == 2) = some b2 := by
    rw [find?_updateFirst_other (p := fun b => b.id == 1)
      (f := fun b => { b with tasks := b.tasks.eraseIdx 0 })
      (q := fun b => b.id == 2) schedule (fun _ => rfl) hpq12, h2]
  have hafter1 : (updateFirst (fun b => b.id == 1)
      (fun b => { b with tasks := b.tasks.eraseIdx 0 }) schedule).find?
        (fun b => b.id == 1) = some ({ b1 with tasks := rest }) := by
    rw [find?_updateFirst_self
      (f := fun b => { b with tasks := b.tasks.eraseIdx 0 }) h1 (fun _ => rfl)]
    simp only [hb1]
    rfl
  refine ⟨?_, ?_, ?_, ?_, ?_, ?_, ?_⟩
  · rw [e, find?_updateFirst_other (p := fun b => b.id == 2)
      (f := fun b => { b with tasks := spliceInsert 1 tk b.tasks })
      (q := fun b => b.id == 1) _ (fun _ => rfl) hpq21]
    exact hafter1
  · rw [e]
    exact find?_updateFirst_self
      (f := fun b => { b with tasks := spliceInsert 1 tk b.tasks }) hafter2 (fun _ => rfl)
  · cases hu : b2.tasks with
    | nil => exact absurd hu hb2
    | cons u us => rw [spliceInsert_one_cons]; rfl
  · exact length_spliceInsert 1 tk b2.tasks
  · rw [hb1, List.length_cons]
  · have t1 := totalTasks_updateFirst (p := fun b => b.id == 1)
      (f := fun b => { b with tasks := b.tasks.eraseIdx 0 }) h1
    have t2 := totalTasks_updateFirst (p := fun b => b.id == 2)
      (f := fun b => { b with tasks := spliceInsert 1 tk b.tasks }) hafter2
    simp only [hb1, List.eraseIdx_cons_zero, List.length_cons] at t1
    simp only [length_spliceInsert] at t2
    rw [e]
    omega
  · intro src dst s h
    rcases h with h | h
    · unfold reorderTask
      rw [h]
    · unfold reorderTask
      rw [h]
      cases s.find? (fun b => b.id == src.blockId) <;> rfl

/-- C5 witness: a concrete two-block schedule where the move lands the
source task at position 1 of the destination block and conserves the count,
and a concrete missing-id call that is a no-op. -/
theorem c5_reorderTask_witness :
    (reorderTask ⟨1, 0⟩ ⟨2, 1⟩
        [ScheduleBlock.mk 1 "" "" [some (Task.mk "a" ""), some (Task.mk "b" "")],
         ScheduleBlock.mk 2 "" "" [some (Task.mk "c" "")]]).find?
      (fun b => b.id == 2) =
      some (ScheduleBlock.mk 2 "" "" [some (Task.mk "c" ""), some (Task.mk "a" "")]) ∧
    totalTasks (reorderTask ⟨1, 0⟩ ⟨2, 1⟩
        [ScheduleBlock.mk 1 "" "" [some (Task.mk "a" ""), some (Task.mk "b" "")],
         ScheduleBlock.mk 2 "" "" [some (Task.mk "c" "")]]) =
      totalTasks
        [ScheduleBlock.mk 1 "" "" [some (Task.mk "a" ""), some (Task.mk "b" "")],
         ScheduleBlock.mk 2 "" "" [some (Task.mk "c" "")]] ∧
    reorderTask ⟨1, 0⟩ ⟨9, 1⟩
        [ScheduleBlock.mk 1 "" "" [some (Task.mk "a" ""), some (Task.mk "b" "")],
         ScheduleBlock.mk 2 "" "" [some (Task.mk "c" "")]] =
      [ScheduleBlock.mk 1 "" "" [some (Task.mk "a" ""), some (Task.mk "b" "")],
       ScheduleBlock.mk 2 "" "" [some (Task.mk "c" "")]] := by
  have h := c5_reorderTask_moves_one_task
    [ScheduleBlock.mk 1 "" "" [some (Task.mk "a" ""), some (Task.mk "b" "")],
     ScheduleBlock.mk 2 "" "" [some (Task.mk "c" "")]]
    (ScheduleBlock.mk 1 "" "" [some (Task.mk "a" ""), some (Task.mk "b" "")])
    (ScheduleBlock.mk 2 "" "" [some (Task.mk "c" "")])
    (some (Task.mk "a" "")) [some (Task.mk "b" "")]
    (by decide) (by decide) (by decide) (by decide)
  exact ⟨h.2.1, h.2.2.2.2.2.1, h.2.2.2.2.2.2 ⟨1, 0⟩ ⟨9, 1⟩ _ (Or.inr (by decide))⟩

/-- C9: when both block ids are found but the source task index is out of
range, `reorderTask` is not a no-op: the erase removes nothing (the whole
update is exactly an insertion pass), an `undefined` slot (`none`) is
spliced into the destination block, whose slot count grows by one, and the
total task count grows by one instead of being conserved. -/
theorem c9_reorderTask_out_of_range_inserts_undefined
    (schedule : List ScheduleBlock) (src dst : DragPos) (b1 b2 : ScheduleBlock)
    (h1 : schedule.find? (fun b => b.id == src.blockId) = some b1)
    (h2 : schedule.find? (fun b => b.id == dst.blockId) = some b2)
    (hoob : b1.tasks.length ≤ src.taskIndex) :
    reorderTask src dst schedule =
      updateFirst (fun b => b.id == dst.blockId)
        (fun b => { b with tasks := spliceInsert dst.taskIndex none b.tasks })
        schedule ∧
    (reorderTask src dst schedule).find? (fun b => b.id == dst.blockId) =
      some { b2 with tasks := spliceInsert dst.taskIndex none b2.tasks } ∧
    (spliceInsert dst.taskIndex (none : Option Task) b2.tasks).length =
      b2.tasks.length + 1 ∧
    totalTasks (reorderTask src dst schedule) = totalTasks schedule + 1 ∧
    reorderTask src dst schedule ≠ schedule := by
  have hremoved : (b1.tasks.get? src.taskIndex).getD none = (none : Option Task) := by
    rw [get?_eq_none_of_length_le hoob]
    rfl
  have hfix : ({ b1 with tasks := b1.tasks.eraseIdx src.taskIndex } : ScheduleBlock) = b1 := by
    rw [eraseIdx_of_length_le hoob]
  have enoop : updateFirst (fun b => b.id == src.blockId)
      (fun b => { b with tasks := b.tasks.eraseIdx src.taskIndex }) schedule = schedule :=
    updateFirst_id_of_fix
      (f := fun b => { b with tasks := b.tasks.eraseIdx src.taskIndex }) h1 hfix
  have e : reorderTask src dst schedule =
      updateFirst (fun b => b.id == dst.blockId)
        (fun b => { b with tasks := spliceInsert dst.taskIndex none b.tasks })
        schedule := by
    simp only [reorderTask, h1, h2, hremoved, enoop]
  have hfind : (reorderTask src dst schedule).find? (fun b => b.id == dst.blockId) =
      some { b2 with tasks := spliceInsert dst.taskIndex none b2.tasks } := by
    rw [e]
    exact find?_updateFirst_self
      (f := fun b => { b with tasks := spliceInsert dst.taskIndex none b.tasks })
      h2 (fun _ => rfl)
  have htot : totalTasks (reorderTask src dst schedule) = totalTasks schedule + 1 := by
    have t := totalTasks_updateFirst (p := fun b => b.id == dst.blockId)
      (f := fun b => { b with tasks := spliceInsert dst.taskIndex none b.tasks }) h2
    simp only [length_spliceInsert] at t
    rw [e]
    omega
  refine ⟨e, hfind, length_spliceInsert _ _ _, htot, ?_⟩
  intro hcontra
  rw [hcontra] at htot
  omega

/-- C9 witness: a concrete schedule with an out-of-range source index —
the destination block gains an `undefined` slot and the total slot count
grows by one. -/
theorem c9_reorderTask_witness :
    (reorderTask ⟨1, 5⟩ ⟨2, 1⟩
        [ScheduleBlock.mk 1 "" "" [some (Task.mk "a" "")],
         ScheduleBlock.mk 2 "" "" [some (Task.mk "c" "")]]).find?
      (fun b => b.id == 2) =
      some (ScheduleBlock.mk 2 "" "" [some (Task.mk "c" ""), none]) ∧
    totalTasks (reorderTask ⟨1, 5⟩ ⟨2, 1⟩
        [ScheduleBlock.mk 1 "" "" [some (Task.mk "a" "")],
         ScheduleBlock.mk 2 "" "" [some (Task.mk "c" "")]]) =
      totalTasks
        [ScheduleBlock.mk 1 "" "" [some (Task.mk "a" "")],
         ScheduleBlock.mk 2 "" "" [some (Task.mk "c" "")]] + 1 := by
  have h := c9_reorderTask_out_of_range_inserts_undefined
    [ScheduleBlock.mk 1 "" "" [some (Task.mk "a" "")],
     ScheduleBlock.mk 2 "" "" [some (Task.mk "c" "")]]
    ⟨1, 5⟩ ⟨2, 1⟩
    (ScheduleBlock.mk 1 "" "" [some (Task.mk "a" "")])
    (ScheduleBlock.mk 2 "" "" [some (Task.mk "c" "")])
    (by decide) (by decide) (by decide)
  exact ⟨h.2.1, h.2.2.2.1⟩

theorem filterMap_ext_fun {f g : α → Option β} (l : List α) (h : ∀ a, f a = g a) :
    l.filterMap f = l.filterMap g := by
  induction l with
  | nil => rfl
  | cons a as ih => simp [List.filterMap_cons, h a, ih]

theorem filterWithIdx_eq_enumFrom_filterMap (p : Nat → α → Bool) (n : Nat) (l : List α) :
    filterWithIdx p n l =
      (l.enumFrom n).filterMap (fun it => if p it.1 it.2 then some it.2 else none) := by
  induction l generalizing n with
  | nil => rfl
  | cons a as ih =>
    cases hp : p n a with
    | true => simp [filterWithIdx, hp, List.enumFrom, List.filterMap_cons, ih]
    | false => simp [filterWithIdx, hp, List.enumFrom, List.filterMap_cons, ih]

/-- C6: `clearCompletedTasks` keeps, in order, exactly the tasks whose
composite key (built from the pre-filter index) does not read as completed:
it equals the per-block filter of the index-enumerated task list that drops
precisely the entries whose key maps to true and keeps the rest. -/
theorem c6_clearCompletedTasks_exact (completed : String → Bool)
    (schedule : List ScheduleBlock) :
    clearCompletedTasks completed schedule =
      schedule.map (fun b =>
        { b with
            tasks := b.tasks.enum.filterMap
              (fun it => if completed (mkTaskKey b.id it.1) then none else some it.2) }) := by
  unfold clearCompletedTasks
  apply List.map_congr_left
  intro b _
  rw [filterWithIdx_eq_enumFrom_filterMap]
  rw [show b.tasks.enum = b.tasks.enumFrom 0 from rfl]
  congr 1
  apply filterMap_ext_fun
  intro it
  cases hc : completed (mkTaskKey b.id it.1) <;> simp [hc]

theorem length_mapWithIdx (f : Nat → α → β) (n : Nat) (l : List α) :
    (mapWithIdx f n l).length = l.length := by
  induction l generalizing n with
  | nil => rfl
  | cons a as ih => simp [mapWithIdx, ih]

theorem map_id_mapWithIdx_parse (n : Nat) (l : List (List Char)) :
    (mapWithIdx parseBlockFragment n l).map (fun b => b.id) = List.range' n l.length := by
  induction l generalizing n with
  | nil => rfl
  | cons a as ih =>
    simp only [mapWithIdx, List.map_cons, List.length_cons, List.range']
    exact congrArg (fun t => n :: t) (ih (n + 1))

theorem map_id_map_of_preserve {g : ScheduleBlock → ScheduleBlock}
    (s : List ScheduleBlock) (hg : ∀ x, (g x).id = x.id) :
    (s.map g).map (fun b => b.id) = s.map (fun b => b.id) := by
  induction s with
  | nil => rfl
  | cons a as ih => simp [hg, ih]

/-- C7: block ids are sequential and gapless at parse time — the id list of
any parse result is `range` of its length — and every store mutation
(`updateTaskText`, `updateTaskNotes`, `deleteTask`, `reorderTask`,
`clearCompletedTasks`) leaves the id list of the schedule unchanged, so
ids are never reassigned by later edits. -/
theorem c7_block_ids_sequential_and_stable :
    (∀ content : String,
      (parsePlannerContent content).map (fun b => b.id) =
        List.range (parsePlannerContent content).length) ∧
    (∀ (blockId taskIndex : Nat) (newText : String) (s : List ScheduleBlock),
      (updateTaskText blockId taskIndex newText s).map (fun b => b.id) =
        s.map (fun b => b.id)) ∧
    (∀ (blockId taskIndex : Nat) (newNotes : String) (s : List ScheduleBlock),
      (updateTaskNotes blockId taskIndex newNotes s).map (fun b => b.id) =
        s.map (fun b => b.id)) ∧
    (∀ (blockId taskIndex : Nat) (s : List ScheduleBlock),
      (deleteTask blockId taskIndex s).map (fun b => b.id) = s.map (fun b => b.id)) ∧
    (∀ (src dst : DragPos) (s : List ScheduleBlock),
      (reorderTask src dst s).map (fun b => b.id) = s.map (fun b => b.id)) ∧
    (∀ (completed : String → Bool) (s : List ScheduleBlock),
      (clearCompletedTasks completed s).map (fun b => b.id) = s.map (fun b => b.id)) := by
  refine ⟨?_, ?_, ?_, ?_, ?_, ?_⟩
  · intro content
    by_cases hc : content = ""
    · simp [parsePlannerContent, hc]
    · unfold parsePlannerContent
      rw [if_neg hc, map_id_mapWithIdx_parse, length_mapWithIdx, List.range_eq_range']
  · intro blockId taskIndex newText s
    unfold updateTaskText
    apply map_id_updateFirst
    intro x
    cases hx : x.tasks.get? taskIndex with
    | none => simp [hx]
    | some o => cases o <;> simp [hx]
  · intro blockId taskIndex newNotes s
    unfold updateTaskNotes
    apply map_id_updateFirst
    intro x
    cases hx : x.tasks.get? taskIndex with
    | none => simp [hx]
    | some o => cases o <;> simp [hx]
  · intro blockId taskIndex s
    unfold deleteTask
    apply map_id_map_of_preserve
    intro x
    cases hx : (x.id == blockId) <;> simp [hx]
  · intro src dst s
    cases h1 : s.find? (fun b => b.id == src.blockId) with
    | none =>
      unfold reorderTask
      rw [h1]
    | some sb =>
      cases h2 : s.find? (fun b => b.id == dst.blockId) with
      | none =>
        unfold reorderTask
        rw [h1, h2]
      | some db =>
        have e : reorderTask src dst s =
            updateFirst (fun b => b.id == dst.blockId)
              (fun b => { b with
                tasks := spliceInsert dst.taskIndex
                  ((sb.tasks.get? src.taskIndex).getD none) b.tasks })
              (updateFirst (fun b => b.id == src.blockId)
                (fun b => { b with tasks := b.tasks.eraseIdx src.taskIndex }) s) := by
          simp only [reorderTask, h1, h2]
        rw [e,
          map_id_updateFirst (p := fun b => b.id == dst.blockId)
            (f := fun b => { b with
              tasks := spliceInsert dst.taskIndex
                ((sb.tasks.get? src.taskIndex).getD none) b.tasks })
            _ (fun _ => rfl),
          map_id_updateFirst (p := fun b => b.id == src.blockId)
            (f := fun b => { b with tasks := b.tasks.eraseIdx src.taskIndex })
            _ (fun _ => rfl)]
  · intro completed s
    unfold clearCompletedTasks
    apply map_id_map_of_preserve
    intro x
    rfl

theorem mem_reminderTick {granted : Bool} {lead : Nat} {blocks : List ScheduleBlock}
    {notified : List Nat} {now : Int} {b : ScheduleBlock}
    (h : b ∈ reminderTick granted lead blocks notified now) :
    b ∈ blocks ∧ shouldNotify lead notified now b = true := by
  unfold reminderTick at h
  by_cases hg : (granted && lead != 0 && !blocks.isEmpty) = true
  · rw [if_pos hg] at h
    exact ⟨List.mem_of_mem_filter h, List.of_mem_filter h⟩
  · rw [if_neg hg] at h
    simp at h

theorem shouldNotify_window {lead : Nat} {notified : List Nat} {now : Int}
    {b : ScheduleBlock} (h : shouldNotify lead notified now b = true) :
    ∃ start, blockStartMs b = some start ∧
      start - (lead : Int) * 60000 ≤ now ∧ now < start ∧ ¬ b.id ∈ notified := by
  unfold shouldNotify at h
  cases hs : blockStartMs b with
  | none => rw [hs] at h; simp at h
  | some start =>
    rw [hs] at h
    simp only [Bool.and_eq_true, decide_eq_true_eq, Bool.not_eq_true'] at h
    refine ⟨start, rfl, h.1.2, h.2, ?_⟩
    simpa using h.1.1

theorem reminderTick_sublist (granted : Bool) (lead : Nat) (blocks : List ScheduleBlock)
    (notified : List Nat) (now : Int) :
    (reminderTick granted lead blocks notified now).Sublist blocks := by
  unfold reminderTick
  by_cases hg : (granted && lead != 0 && !blocks.isEmpty) = true
  · rw [if_pos hg]
    exact List.filter_sublist blocks
  · rw [if_neg hg]
    exact List.nil_sublist blocks

theorem mem_runTicks_events {granted : Bool} {lead : Nat} {blocks : List ScheduleBlock} :
    ∀ (ts : List Int) (notified : List Nat) (t : Int) (i : Nat),
    (t, i) ∈ (runTicks granted lead blocks notified ts).1 →
    t ∈ ts ∧ ∃ b, b ∈ blocks ∧ b.id = i ∧ ∃ start, blockStartMs b = some start ∧
      start - (lead : Int) * 60000 ≤ t ∧ t < start := by
  intro ts
  induction ts with
  | nil =>
    intro notified t i h
    simp [runTicks] at h
  | cons t0 ts ih =>
    intro notified t i h
    simp only [runTicks, List.mem_append] at h
    rcases h with h | h
    · rw [List.mem_map] at h
      obtain ⟨b, hb, heq⟩ := h
      obtain ⟨hbmem, hsn⟩ := mem_reminderTick hb
      obtain ⟨start, hs, hw1, hw2, _⟩ := shouldNotify_window hsn
      rw [Prod.mk.injEq] at heq
      obtain ⟨rfl, rfl⟩ := heq
      exact ⟨List.mem_cons_self _ _, b, hbmem, rfl, start, hs, hw1, hw2⟩
    · obtain ⟨hts, rest⟩ := ih _ t i h
      exact ⟨List.mem_cons_of_mem _ hts, rest⟩

theorem count_runTicks_zero_of_mem {granted : Bool} {lead : Nat}
    {blocks : List ScheduleBlock} :
    ∀ (ts : List Int) (notified : List Nat) (i : Nat), i ∈ notified →
    ((runTicks granted lead blocks notified ts).1.map Prod.snd).count i = 0 := by
  intro ts
  induction ts with
  | nil =>
    intro notified i h
    simp [runTicks]
  | cons t0 ts ih =>
    intro notified i h
    simp only [runTicks, List.map_append, List.count_append]
    have h1 : (((reminderTick granted lead blocks notified t0).map
        (fun b => (t0, b.id))).map Prod.snd).count i = 0 := by
      rw [List.count_eq_zero]
      intro hmem
      simp only [List.map_map, List.mem_map, Function.comp] at hmem
      obtain ⟨b, hb, hbi⟩ := hmem
      obtain ⟨_, hsn⟩ := mem_reminderTick hb
      obtain ⟨_, _, _, _, hnot⟩ := shouldNotify_window hsn
      exact hnot (hbi ▸ h)
    rw [h1, ih _ i (List.mem_append_left _ h)]

theorem count_runTicks_le_one {granted : Bool} {lead : Nat}
    {blocks : List ScheduleBlock}
    (hnd : (blocks.map (fun b => b.id)).Nodup) :
    ∀ (ts : List Int) (notified : List Nat) (i : Nat),
    ((runTicks granted lead blocks notified ts).1.map Prod.snd).count i ≤ 1 := by
  intro ts
  induction ts with
  | nil =>
    intro notified i
    simp [runTicks]
  | cons t0 ts ih =>
    intro notified i
    simp only [runTicks, List.map_append, List.count_append]
    have hfsub : ((reminderTick granted lead blocks notified t0).map
        (fun b => b.id)).Sublist (blocks.map (fun b => b.id)) :=
      (reminderTick_sublist granted lead blocks notified t0).map _
    have hfired : (((reminderTick granted lead blocks notified t0).map
        (fun b => (t0, b.id))).map Prod.snd) =
        (reminderTick granted lead blocks notified t0).map (fun b => b.id) := by
      rw [List.map_map]
      rfl
    by_cases hmem : i ∈ (reminderTick granted lead blocks notified t0).map (fun b => b.id)
    · have hz : ((runTicks granted lead blocks
          (notified ++ (reminderTick granted lead blocks notified t0).map
            (fun b => b.id)) ts).1.map Prod.snd).count i = 0 :=
        count_runTicks_zero_of_mem ts _ i (List.mem_append_right _ hmem)
      have hc1 : (((reminderTick granted lead blocks notified t0).map
          (fun b => (t0, b.id))).map Prod.snd).count i ≤ 1 := by
        rw [hfired]
        exact le_trans (hfsub.count_le i) (List.nodup_iff_count_le_one.mp hnd i)
      omega
    · have hc0 : (((reminderTick granted lead blocks notified t0).map
          (fun b => (t0, b.id))).map Prod.snd).count i = 0 := by
        rw [hfired, List.count_eq_zero]
        exact hmem
      have := ih (notified ++ (reminderTick granted lead blocks notified t0).map
        (fun b => b.id)) i
      omega

theorem eq_of_nodup_map_id {blocks : List ScheduleBlock}
    (hnd : (blocks.map (fun b => b.id)).Nodup) {b b' : ScheduleBlock}
    (hb : b ∈ blocks) (hb' : b' ∈ blocks) (hid : b.id = b'.id) : b = b' :=
  List.inj_on_of_nodup_map hnd hb hb' hid

/-- C3: over any run of scheduler ticks within one schedule generation
(starting from the empty notified set), a fired event for a block happens
only at a tick instant lying in the half-open window
`[startTime - lead, startTime)` of that block — so a block never checked
while in the window is never notified late — a block whose start time
fails to parse never fires, and each block id fires at most once. -/
theorem c3_reminder_scheduler_properties (granted : Bool) (lead : Nat)
    (blocks : List ScheduleBlock) (ts : List Int)
    (hnd : (blocks.map (fun b => b.id)).Nodup) :
    (∀ t i, (t, i) ∈ (runTicks granted lead blocks [] ts).1 →
      t ∈ ts ∧ ∃ b, b ∈ blocks ∧ b.id = i ∧ ∃ start, blockStartMs b = some start ∧
        start - (lead : Int) * 60000 ≤ t ∧ t < start) ∧
    (∀ b ∈ blocks, blockStartMs b = none →
      ∀ t, (t, b.id) ∉ (runTicks granted lead blocks [] ts).1) ∧
    (∀ i, ((runTicks granted lead blocks [] ts).1.map Prod.snd).count i ≤ 1) := by
  refine ⟨fun t i h => mem_runTicks_events ts [] t i h, ?_,
    fun i => count_runTicks_le_one hnd ts [] i⟩
  intro b hb hnone t hmem
  obtain ⟨_, b', hb', hid, start, hs, _, _⟩ := mem_runTicks_events ts [] t b.id hmem
  rw [eq_of_nodup_map_id hnd hb' hb hid, hnone] at hs
  exact Option.noConfusion hs

/-- C3 witness: a one-block schedule (id 0, start 7:00 AM) with nodup ids;
over a single tick the block fires at most once. -/
theorem c3_reminder_witness :
    ((runTicks true 5 [ScheduleBlock.mk 0 "7:00 AM - 8:00 AM" "Morning" []] []
        [25000000]).1.map Prod.snd).count 0 ≤ 1 := by
  have h := c3_reminder_scheduler_properties true 5
    [ScheduleBlock.mk 0 "7:00 AM - 8:00 AM" "Morning" []] [25000000] (by decide)
  exact h.2.2 0

theorem mem_of_mem_splitOnTwoChars {s1 s2 : Char} (l : List Char) :
    ∀ frag ∈ splitOnTwoChars s1 s2 l, ∀ c ∈ frag, c ∈ l := by
  induction l using splitOnTwoChars.induct s1 s2 with
  | case1 =>
    intro frag hf c hc
    simp only [splitOnTwoChars, List.mem_singleton] at hf
    subst hf
    simp at hc
  | case2 c0 =>
    intro frag hf c hc
    simp only [splitOnTwoChars, List.mem_singleton] at hf
    subst hf
    exact hc
  | case3 c1 c2 cs hcond ih =>
    intro frag hf c hc
    unfold splitOnTwoChars at hf
    rw [if_pos hcond] at hf
    rcases List.mem_cons.mp hf with hf | hf
    · subst hf
      simp at hc
    · exact List.mem_cons_of_mem _ (List.mem_cons_of_mem _ (ih frag hf c hc))
  | case4 c1 c2 cs hcond hnil ih =>
    intro frag hf c hc
    unfold splitOnTwoChars at hf
    rw [if_neg hcond, hnil] at hf
    simp only [List.mem_singleton] at hf
    subst hf
    simp only [List.mem_singleton] at hc
    subst hc
    exact List.mem_cons_self _ _
  | case5 c1 c2 cs hcond f rest hsplit ih =>
    intro frag hf c hc
    unfold splitOnTwoChars at hf
    rw [if_neg hcond, hsplit] at hf
    rcases List.mem_cons.mp hf with hf | hf
    · subst hf
      rcases List.mem_cons.mp hc with hc | hc
      · subst hc
        exact List.mem_cons_self _ _
      · exact List.mem_cons_of_mem _
          (ih f (hsplit ▸ List.mem_cons_self f rest) c hc)
    · exact List.mem_cons_of_mem _
        (ih frag (hsplit ▸ List.mem_cons_of_mem f hf) c hc)

/-- C8: `parsePlannerContent` is total by construction, and malformed
documents degrade to the empty block sequence: the empty string, any
all-whitespace string, and any string without a colon character all parse
to the empty schedule instead of failing. -/
theorem c8_parse_never_fails_on_degenerate_inputs :
    parsePlannerContent "" = [] ∧
    (∀ s : String, (∀ c ∈ s.data, isJsWs c = true) → parsePlannerContent s = []) ∧
    (∀ s : String, (':' : Char) ∉ s.data → parsePlannerContent s = []) := by
  refine ⟨rfl, ?_, ?_⟩
  · intro s hws
    by_cases hs : s = ""
    · simp [hs, parsePlannerContent]
    · unfold parsePlannerContent
      rw [if_neg hs]
      have hfil : (splitOnTwoChars '*' '*' s.data).filter
          (fun fragment => !(jsTrim fragment).isEmpty && fragment.contains ':') = [] := by
        rw [List.filter_eq_nil_iff]
        intro frag hfrag
        have hfragws : ∀ c ∈ frag, isJsWs c = true :=
          fun c hc => hws c (mem_of_mem_splitOnTwoChars s.data frag hfrag c hc)
        have htrim : jsTrim frag = [] := by
          unfold jsTrim jsTrimLeft jsTrimRight
          rw [List.dropWhile_eq_nil_iff.mpr hfragws]
          rfl
        simp [htrim]
      rw [hfil]
      rfl
  · intro s hcolon
    by_cases hs : s = ""
    · simp [hs, parsePlannerContent]
    · unfold parsePlannerContent
      rw [if_neg hs]
      have hfil : (splitOnTwoChars '*' '*' s.data).filter
          (fun fragment => !(jsTrim fragment).isEmpty && fragment.contains ':') = [] := by
        rw [List.filter_eq_nil_iff]
        intro frag hfrag
        have hnc : (':' : Char) ∉ frag :=
          fun hc => hcolon (mem_of_mem_splitOnTwoChars s.data frag hfrag ':' hc)
        intro hcontra
        rw [Bool.and_eq_true] at hcontra
        exact hnc (by simpa [List.contains, List.elem_iff] using hcontra.2)
      rw [hfil]
      rfl

/-- C8 witness: a whitespace-only document and a colon-free document both
parse to the empty schedule. -/
theorem c8_parse_witness :
    parsePlannerContent " \n  " = [] ∧
    parsePlannerContent "no bold nor other marks here" = [] := by
  constructor
  · exact c8_parse_never_fails_on_degenerate_inputs.2.1 " \n  " (by decide)
  · exact c8_parse_never_fails_on_degenerate_inputs.2.2
      "no bold nor other marks here" (by decide)

theorem not_ws_of_digit {c : Char} (h : isAsciiDigit c = true) : isJsWs c = false := by
  unfold isAsciiDigit at h
  unfold isJsWs
  simp only [Bool.and_eq_true, decide_eq_true_eq] at h
  simp only [Bool.or_eq_false_iff, Bool.and_eq_false_iff, decide_eq_false_iff_not]
  omega

theorem not_ws_of_am_pm {c : Char}
    (h : (c = 'A' ∨ c = 'a') ∨ (c = 'P' ∨ c = 'p')) : isJsWs c = false := by
  rcases h with (rfl | rfl) | (rfl | rfl) <;> rfl

theorem not_ws_of_m {c : Char} (h : c = 'M' ∨ c = 'm') : isJsWs c = false := by
  rcases h with rfl | rfl <;> rfl

theorem dropWhile_append_not {p : Char → Bool} (pre : List Char) {x : Char}
    (t : List Char) (hx : p x = false) :
    (pre ++ x :: t).dropWhile p = pre.dropWhile p ++ x :: t := by
  induction pre with
  | nil => simp [List.dropWhile_cons, hx]
  | cons a as ih =>
    cases ha : p a with
    | true => simp [List.dropWhile_cons, ha, ih]
    | false => simp [List.dropWhile_cons, ha]

theorem dropWhile_all_append {p : Char → Bool} {ws : List Char} {x : Char}
    (t : List Char) (hws : ∀ c ∈ ws, p c = true) (hx : p x = false) :
    (ws ++ x :: t).dropWhile p = x :: t := by
  rw [dropWhile_append_not ws t hx, List.dropWhile_eq_nil_iff.mpr hws]
  rfl

theorem jsTrimRight_append {X : List Char} (post : List Char) {y : Char}
    (hy : isJsWs y = false) :
    jsTrimRight (X ++ y :: post) = X ++ y :: jsTrimRight post := by
  unfold jsTrimRight
  have h1 : (X ++ y :: post).reverse = post.reverse ++ y :: X.reverse := by
    simp
  rw [h1, dropWhile_append_not post.reverse X.reverse hy]
  simp

theorem jsTrim_decomp (P Q mid : List Char) {x y : Char}
    (hx : isJsWs x = false) (hy : isJsWs y = false) :
    jsTrim (P ++ (x :: mid ++ [y]) ++ Q) =
      P.dropWhile isJsWs ++ (x :: mid ++ [y]) ++ jsTrimRight Q := by
  unfold jsTrim jsTrimLeft
  have h1 : P ++ (x :: mid ++ [y]) ++ Q = P ++ x :: (mid ++ [y] ++ Q) := by simp
  rw [h1, dropWhile_append_not P _ hx]
  have h2 : P.dropWhile isJsWs ++ x :: (mid ++ [y] ++ Q) =
      (P.dropWhile isJsWs ++ x :: mid) ++ y :: Q := by simp
  rw [h2, jsTrimRight_append Q hy]
  simp

theorem afterMinutes_isSome (hh mm : Nat) {ws : List Char} {a b : Char}
    (rest : List Char) (hws : ∀ c ∈ ws, isJsWs c = true)
    (ha : (a = 'A' ∨ a = 'a') ∨ (a = 'P' ∨ a = 'p')) (hb : b = 'M' ∨ b = 'm') :
    (afterMinutes hh mm (ws ++ a :: b :: rest)).isSome = true := by
  unfold afterMinutes
  rw [dropWhile_all_append (b :: rest) hws (not_ws_of_am_pm ha)]
  rcases ha with (rfl | rfl) | (rfl | rfl) <;> rcases hb with rfl | rfl <;> rfl

theorem afterHour_isSome (hh : Nat) {m1 m2 : Char} {ws : List Char} {a b : Char}
    (rest : List Char)
    (hm1 : isAsciiDigit m1 = true) (hm2 : isAsciiDigit m2 = true)
    (hws : ∀ c ∈ ws, isJsWs c = true)
    (ha : (a = 'A' ∨ a = 'a') ∨ (a = 'P' ∨ a = 'p')) (hb : b = 'M' ∨ b = 'm') :
    (afterHour hh (':' :: m1 :: m2 :: (ws ++ a :: b :: rest))).isSome = true := by
  simp only [afterHour]
  rw [hm1, hm2]
  simp only [Bool.and_self, if_true]
  exact afterMinutes_isSome hh _ rest hws ha hb

theorem matchTimeAt_isSome_one_digit {x m1 m2 : Char} {ws : List Char} {a b : Char}
    (rest : List Char) (hx : isAsciiDigit x = true)
    (hm1 : isAsciiDigit m1 = true) (hm2 : isAsciiDigit m2 = true)
    (hws : ∀ c ∈ ws, isJsWs c = true)
    (ha : (a = 'A' ∨ a = 'a') ∨ (a = 'P' ∨ a = 'p')) (hb : b = 'M' ∨ b = 'm') :
    (matchTimeAt (x :: ':' :: m1 :: m2 :: (ws ++ a :: b :: rest))).isSome = true := by
  simp only [matchTimeAt]
  have hcd : isAsciiDigit ':' = false := rfl
  rw [hx, hcd]
  simp only [Bool.and_false, Bool.true_and, Bool.false_and, if_false, if_true,
    Bool.false_eq_true, ite_false, ite_true]
  exact afterHour_isSome (digitVal x) rest hm1 hm2 hws ha hb

theorem matchTimeAt_isSome_two_digit {x y m1 m2 : Char} {ws : List Char} {a b : Char}
    (rest : List Char) (hx : isAsciiDigit x = true) (hy : isAsciiDigit y = true)
    (hm1 : isAsciiDigit m1 = true) (hm2 : isAsciiDigit m2 = true)
    (hws : ∀ c ∈ ws, isJsWs c = true)
    (ha : (a = 'A' ∨ a = 'a') ∨ (a = 'P' ∨ a = 'p')) (hb : b = 'M' ∨ b = 'm') :
    (matchTimeAt (x :: y :: ':' :: m1 :: m2 :: (ws ++ a :: b :: rest))).isSome = true := by
  simp only [matchTimeAt]
  rw [hx, hy]
  simp only [Bool.and_self, if_true, ite_true]
  cases hah : afterHour (10 * digitVal x + digitVal y)
      (':' :: m1 :: m2 :: (ws ++ a :: b :: rest)) with
  | some r => simp
  | none =>
    have hcontra := afterHour_isSome (10 * digitVal x + digitVal y) rest hm1 hm2 hws ha hb
    rw [hah] at hcontra
    simp at hcontra

theorem scanTime_isSome_of_suffix : ∀ (pre l : List Char),
    (matchTimeAt l).isSome = true → (scanTime (pre ++ l)).isSome = true := by
  intro pre
  induction pre with
  | nil =>
    intro l h
    cases l with
    | nil => simp [matchTimeAt] at h
    | cons c cs =>
      rw [List.nil_append]
      unfold scanTime
      cases hm : matchTimeAt (c :: cs) with
      | none => rw [hm] at h; simp at h
      | some r => simp
  | cons a as ih =>
    intro l h
    rw [List.cons_append]
    unfold scanTime
    cases hm : matchTimeAt (a :: (as ++ l)) with
    | some r => simp
    | none => exact ih l h

/-- C10: `parseTime` succeeds on any string that merely contains, anywhere
inside it, a substring of the shape one-or-two digits, a colon, two digits,
optional whitespace, and AM or PM in any letter case — the regex search is
unanchored, so arbitrary surrounding text (or the rest of a range string)
does not prevent the match. -/
theorem c10_parseTime_succeeds_on_embedded_time
    (pre d1 d2 ws ampm post s : String)
    (hs : s = pre ++ d1 ++ ":" ++ d2 ++ ws ++ ampm ++ post)
    (hd1len : d1.data.length = 1 ∨ d1.data.length = 2)
    (hd1 : ∀ c ∈ d1.data, isAsciiDigit c = true)
    (hd2 : ∃ m1 m2, d2.data = [m1, m2] ∧ isAsciiDigit m1 = true ∧ isAsciiDigit m2 = true)
    (hws : ∀ c ∈ ws.data, isJsWs c = true)
    (hampm : ∃ a b, ampm.data = [a, b] ∧
      ((a = 'A' ∨ a = 'a') ∨ (a = 'P' ∨ a = 'p')) ∧ (b = 'M' ∨ b = 'm')) :
    (parseTime s).isSome = true := by
  obtain ⟨m1, m2, hd2eq, hm1, hm2⟩ := hd2
  obtain ⟨a, b, hampmeq, ha, hb⟩ := hampm
  have hcolon : (":" : String).data = [':'] := rfl
  have hdata : s.data = pre.data ++ d1.data ++ ':' :: m1 :: m2 ::
      (ws.data ++ a :: b :: post.data) := by
    rw [hs]
    simp [String.data_append, hd2eq, hampmeq, hcolon]
  have hne : s ≠ "" := by
    intro h
    have hd0 : s.data = [] := by rw [h]
    rw [hd0] at hdata
    have hlen := congrArg List.length hdata
    simp only [List.length_nil, List.length_append, List.length_cons] at hlen
    omega
  have hscan : (scanTime (jsTrim (pre.data ++ d1.data ++ ':' :: m1 :: m2 ::
      (ws.data ++ a :: b :: post.data)))).isSome = true := by
    rcases hd1len with h1 | h2
    · obtain ⟨x, hxe⟩ := List.length_eq_one.mp h1
      have hxd : isAsciiDigit x = true :=
        hd1 x (by rw [hxe]; exact List.mem_singleton_self x)
      have hshape : pre.data ++ d1.data ++ ':' :: m1 :: m2 ::
          (ws.data ++ a :: b :: post.data) =
          pre.data ++ (x :: (':' :: m1 :: m2 :: ws.data ++ [a]) ++ [b]) ++ post.data := by
        rw [hxe]
        simp
      rw [hshape,
        jsTrim_decomp pre.data post.data _ (not_ws_of_digit hxd) (not_ws_of_m hb)]
      have hshape2 : pre.data.dropWhile isJsWs ++
          (x :: (':' :: m1 :: m2 :: ws.data ++ [a]) ++ [b]) ++ jsTrimRight post.data =
          pre.data.dropWhile isJsWs ++ (x :: ':' :: m1 :: m2 ::
            (ws.data ++ a :: b :: jsTrimRight post.data)) := by
        simp
      rw [hshape2]
      exact scanTime_isSome_of_suffix _ _
        (matchTimeAt_isSome_one_digit (jsTrimRight post.data) hxd hm1 hm2 hws ha hb)
    · have hxy : ∃ x y, d1.data = [x, y] := by
        cases hd : d1.data with
        | nil => rw [hd] at h2; simp at h2
        | cons x t =>
          cases t with
          | nil => rw [hd] at h2; simp at h2
          | cons y t2 =>
            cases t2 with
            | nil => exact ⟨x, y, rfl⟩
            | cons z t3 =>
              rw [hd] at h2
              simp [List.length_cons] at h2
      obtain ⟨x, y, hxe⟩ := hxy
      have hxd : isAsciiDigit x = true :=
        hd1 x (by rw [hxe]; exact List.mem_cons_self x [y])
      have hyd : isAsciiDigit y = true :=
        hd1 y (by rw [hxe]; exact List.mem_cons_of_mem x (List.mem_singleton_self y))
      have hshape : pre.data ++ d1.data ++ ':' :: m1 :: m2 ::
          (ws.data ++ a :: b :: post.data) =
          pre.data ++ (x :: (y :: ':' :: m1 :: m2 :: ws.data ++ [a]) ++ [b]) ++
            post.data := by
        rw [hxe]
        simp
      rw [hshape,
        jsTrim_decomp pre.data post.data _ (not_ws_of_digit hxd) (not_ws_of_m hb)]
      have hshape2 : pre.data.dropWhile isJsWs ++
          (x :: (y :: ':' :: m1 :: m2 :: ws.data ++ [a]) ++ [b]) ++
            jsTrimRight post.data =
          pre.data.dropWhile isJsWs ++ (x :: y :: ':' :: m1 :: m2 ::
            (ws.data ++ a :: b :: jsTrimRight post.data)) := by
        simp
      rw [hshape2]
      exact scanTime_isSome_of_suffix _ _
        (matchTimeAt_isSome_two_digit (jsTrimRight post.data) hxd hyd hm1 hm2 hws ha hb)
  unfold parseTime
  rw [if_neg hne, hdata]
  cases hsc : scanTime (jsTrim (pre.data ++ d1.data ++ ':' :: m1 :: m2 ::
      (ws.data ++ a :: b :: post.data))) with
  | none =>
    rw [hsc] at hscan
    simp at hscan
  | some r =>
    obtain ⟨h', m', pm⟩ := r
    rfl

/-- C10 witness: a time embedded between arbitrary words is found. -/
theorem c10_parseTime_witness : (parseTime "maybe 7:30 PM tonight").isSome = true := by
  have h := c10_parseTime_succeeds_on_embedded_time
    "maybe " "7" "30" " " "PM" " tonight" "maybe 7:30 PM tonight"
    (by decide) (Or.inl (by decide)) (by decide)
    ⟨'3', '0', rfl, by decide, by decide⟩ (by decide)
    ⟨'P', 'M', rfl, Or.inr (Or.inl rfl), Or.inl rfl⟩
  exact h

/-- C4: `parseTime` converts to 24-hour form — 12 AM gives hour 0, 12 PM
stays 12, 7:05 PM gives hour 19 — and returns `none` on the empty string
and on "garbage". -/
theorem c4_parseTime_conversions :
    parseTime "12:00 AM" = some (0, 0) ∧
    parseTime "12:30 PM" = some (12, 30) ∧
    parseTime "7:05 PM" = some (19, 5) ∧
    parseTime "" = none ∧
    parseTime "garbage" = none := by
  decide

end Brainwave
